import Mathlib

/-!
Verification of the results-visualization subsystem of luxgiant-dstream
(src/luxgiant_dstream/plots.py) against its natural-language specification.

The Python code is shallowly embedded: dataframes become lists of records,
numpy arrays become lists of rationals, and the two external real-valued
collaborators (numpy's -log10 and scipy's beta.ppf) are passed in as
function parameters, since the claims under study only concern which
arguments the code feeds them and the structure of the resulting data.
Calls that raise Python exceptions are modelled with Except.
-/

namespace GwasPlots

/-! ### np.round to 3 decimals (plots.py, qq_plot lines 218-231)

numpy rounds half-to-even; we model that exactly on rationals. -/

/-- Round a rational to the nearest integer, ties going to the even integer,
as numpy's rounding does. -/
def roundHalfEven (x : ℚ) : ℤ :=
  let f := Int.floor x
  let frac := x - (f : ℚ)
  if frac < 1/2 then f
  else if 1/2 < frac then f + 1
  else if f % 2 = 0 then f else f + 1

/-- np.round(x, 3): scale by 1000, round half-even, scale back. -/
def round3 (x : ℚ) : ℚ := ((roundHalfEven (x * 1000) : ℤ) : ℚ) / 1000

lemma roundHalfEven_intCast (m : ℤ) : roundHalfEven (m : ℚ) = m := by
  unfold roundHalfEven
  simp only [Int.floor_intCast, sub_self]
  norm_num

lemma round3_round3 (x : ℚ) : round3 (round3 x) = round3 x := by
  unfold round3
  rw [div_mul_cancel₀ _ (by norm_num : (1000 : ℚ) ≠ 0), roundHalfEven_intCast]

/-! ### pandas drop_duplicates, keep='first' (plots.py lines 228-231) -/

/-- Keep the first occurrence of each element, dropping later duplicates;
seen accumulates the elements already emitted. -/
def dropDupFirstAux {α : Type} [DecidableEq α] (seen : List α) : List α → List α
  | [] => []
  | a :: l => if a ∈ seen then dropDupFirstAux seen l else a :: dropDupFirstAux (a :: seen) l

/-- pandas DataFrame.drop_duplicates with default keep='first'. -/
def dropDupFirst {α : Type} [DecidableEq α] (l : List α) : List α := dropDupFirstAux [] l

lemma mem_dropDupFirstAux {α : Type} [DecidableEq α] (x : α) :
    ∀ (l seen : List α), x ∈ dropDupFirstAux seen l ↔ x ∈ l ∧ x ∉ seen := by
  intro l
  induction l with
  | nil => intro seen; simp [dropDupFirstAux]
  | cons a l ih =>
    intro seen
    by_cases ha : a ∈ seen
    · simp only [dropDupFirstAux, if_pos ha, ih, List.mem_cons]
      constructor
      · rintro ⟨hx, hns⟩; exact ⟨Or.inr hx, hns⟩
      · rintro ⟨hx | hx, hns⟩
        · exact absurd (hx ▸ ha) hns
        · exact ⟨hx, hns⟩
    · simp only [dropDupFirstAux, if_neg ha, List.mem_cons, ih]
      by_cases hxa : x = a
      · subst hxa; simp [ha]
      · simp only [hxa, false_or]

lemma nodup_dropDupFirstAux {α : Type} [DecidableEq α] :
    ∀ (l seen : List α), (dropDupFirstAux seen l).Nodup := by
  intro l
  induction l with
  | nil => intro seen; simp [dropDupFirstAux]
  | cons a l ih =>
    intro seen
    by_cases ha : a ∈ seen
    · simpa [dropDupFirstAux, if_pos ha] using ih seen
    · simp only [dropDupFirstAux, if_neg ha, List.nodup_cons]
      refine ⟨fun hmem => ?_, ih (a :: seen)⟩
      rcases (mem_dropDupFirstAux a l (a :: seen)).1 hmem with ⟨-, hns⟩
      exact hns (List.mem_cons_self a seen)

lemma dropDupFirstAux_eq_self {α : Type} [DecidableEq α] :
    ∀ (l seen : List α), l.Nodup → (∀ x ∈ l, x ∉ seen) → dropDupFirstAux seen l = l := by
  intro l
  induction l with
  | nil => intro seen _ _; rfl
  | cons a l ih =>
    intro seen hnd hdis
    have ha : a ∉ seen := hdis a (List.mem_cons_self a l)
    simp only [dropDupFirstAux, if_neg ha]
    congr 1
    refine ih (a :: seen) (List.Nodup.of_cons hnd) ?_
    intro x hx
    intro hmem
    rcases List.mem_cons.1 hmem with rfl | hs
    · exact (List.nodup_cons.1 hnd).1 hx
    · exact hdis x (List.mem_cons_of_mem _ hx) hs

lemma length_dropDupFirstAux_le {α : Type} [DecidableEq α] :
    ∀ (l seen : List α), (dropDupFirstAux seen l).length ≤ l.length := by
  intro l
  induction l with
  | nil => intro seen; simp [dropDupFirstAux]
  | cons a l ih =>
    intro seen
    by_cases ha : a ∈ seen
    · simp only [dropDupFirstAux, if_pos ha, List.length_cons]
      exact Nat.le_succ_of_le (ih seen)
    · simp only [dropDupFirstAux, if_neg ha, List.length_cons]
      exact Nat.succ_le_succ (ih (a :: seen))

lemma dropDupFirst_eq_self {α : Type} [DecidableEq α] {l : List α} (h : l.Nodup) :
    dropDupFirst l = l :=
  dropDupFirstAux_eq_self l [] h (by simp)

/-! ### QQ-plot thinning step (plots.py, qq_plot lines 225-231, grp = None branch)

The code rounds observed and expected -log10(p) columns to 3 decimals and
drops exact duplicate pairs, keeping first occurrences. -/

/-- The thinning transform applied by qq_plot to the paired
(observed, expected) -log10 columns. -/
def thin (X : List (ℚ × ℚ)) : List (ℚ × ℚ) :=
  dropDupFirst (X.map (fun q => (round3 q.1, round3 q.2)))

lemma mem_thin_fixed {X : List (ℚ × ℚ)} {q : ℚ × ℚ} (h : q ∈ thin X) :
    round3 q.1 = q.1 ∧ round3 q.2 = q.2 := by
  have hm : q ∈ X.map (fun q => (round3 q.1, round3 q.2)) :=
    ((mem_dropDupFirstAux q _ []).1 h).1
  rcases List.mem_map.1 hm with ⟨p, -, rfl⟩
  exact ⟨round3_round3 p.1, round3_round3 p.2⟩

/-- C5: thinning is idempotent and never increases length.
This settles the spec sentence about the pure, order-preserving,
idempotent transform of section 4.3. -/
theorem c5_thin_idempotent (X : List (ℚ × ℚ)) :
    thin (thin X) = thin X ∧ (thin X).length ≤ X.length := by
  constructor
  · have hmap : (thin X).map (fun q => (round3 q.1, round3 q.2)) = thin X := by
      have := List.map_congr_left (l := thin X)
        (f := fun q : ℚ × ℚ => (round3 q.1, round3 q.2)) (g := id) ?_
      · simpa using this
      · intro q hq
        rcases mem_thin_fixed hq with ⟨h1, h2⟩
        simp [h1, h2]
    show dropDupFirst ((thin X).map _) = thin X
    rw [hmap]
    exact dropDupFirst_eq_self (nodup_dropDupFirstAux _ [])
  · calc (thin X).length ≤ (X.map (fun q => (round3 q.1, round3 q.2))).length :=
          length_dropDupFirstAux_le _ []
      _ = X.length := List.length_map _ _

/-! ### Coordinate transformer (plots.py, compute_relative_pos lines 451-492)

A dataframe row with the columns compute_relative_pos touches:
chromosome id, base-pair position, p-value. -/

structure GRec where
  chr : ℕ
  pos : ℕ
  p : ℚ
deriving DecidableEq

/-- The distinct chromosome ids in ascending order: pandas groupby sorts its
keys (data.groupby(chr_col), line 473). -/
def chroms (data : List GRec) : List ℕ :=
  List.insertionSort (· ≤ ·) ((data.map (fun r => r.chr)).dedup)

/-- chrlength=(pos_col, max): the maximum observed position on chromosome c
(line 473). -/
def chrLength (data : List GRec) (c : ℕ) : ℕ :=
  ((data.filter (fun r => r.chr = c)).map (fun r => r.pos)).foldr max 0

/-- The grouped frame data.groupby(chr_col).agg(chrlength=...) (line 473). -/
def chrGrouped (data : List GRec) : List (ℕ × ℕ) :=
  (chroms data).map (fun c => (c, chrLength data c))

/-- Inclusive running sum, as pandas Series.cumsum (line 476). -/
def cumsum : List ℕ → List ℕ
  | [] => []
  | a :: l => a :: (cumsum l).map (a + ·)

/-- cumulativechrlength = cumsum of chrlength minus own chrlength (line 476):
the exclusive prefix sums. -/
def excl (l : List ℕ) : List ℕ := (cumsum l).zipWith (fun s x => s - x) l

/-- The chromosome-to-cumulative-offset table that line 479 merges back into
the data. -/
def cumChr (data : List GRec) : List (ℕ × ℕ) :=
  ((chrGrouped data).map (fun g => g.1)).zip (excl ((chrGrouped data).map (fun g => g.2)))

/-- The cumulativechrlength value a record with chromosome c receives from the
merge on the chromosome column (line 479). -/
def codeOffset (data : List GRec) (c : ℕ) : ℕ := ((cumChr data).lookup c).getD 0

/-- rel_pos = pos + cumulativechrlength (line 485). -/
def relPos (data : List GRec) (r : GRec) : ℕ := r.pos + codeOffset data r.chr

/-- Lexicographic order on (chromosome, position) used by
data.sort_values(by=[chr_col, pos_col]) (line 482). -/
def recOrd (a b : GRec) : Prop := a.chr < b.chr ∨ (a.chr = b.chr ∧ a.pos ≤ b.pos)

instance : DecidableRel recOrd := fun a b =>
  inferInstanceAs (Decidable (a.chr < b.chr ∨ (a.chr = b.chr ∧ a.pos ≤ b.pos)))

/-- data.sort_values(by=[chr_col, pos_col]) (line 482). -/
def sortRecs (data : List GRec) : List GRec := List.insertionSort recOrd data

/-- compute_relative_pos: merge the cumulative offsets, sort, set
rel_pos = pos + cumulativechrlength and log10p = -log10(p) (lines 472-492).
Each output element is (row, rel_pos, log10p), with the external real-valued
-log10 passed in as neglog. -/
def compute_relative_pos (neglog : ℚ → ℚ) (data : List GRec) : List (GRec × ℕ × ℚ) :=
  (sortRecs data).map (fun r => (r, relPos data r, neglog r.p))

/-- The spec-side cumulative offset (section 4.1 of the spec): the sum of the
maximum observed position of every chromosome strictly earlier in the
ascending traversal order. -/
def specOffset (data : List GRec) (c : ℕ) : ℕ :=
  (((chroms data).filter (fun x => x < c)).map (chrLength data)).sum

lemma cumsum_ge : ∀ l : List ℕ, List.Forall₂ (· ≤ ·) l (cumsum l) := by
  intro l
  induction l with
  | nil => exact List.Forall₂.nil
  | cons a l ih =>
    refine List.Forall₂.cons le_rfl ?_
    rw [List.forall₂_map_right_iff]
    exact ih.imp (fun _ _ h => Nat.le_trans h (Nat.le_add_left _ a))

lemma zipWith_sub_map_add (a : ℕ) :
    ∀ {L S : List ℕ}, List.Forall₂ (· ≤ ·) L S →
      List.zipWith (fun s x => s - x) (S.map (a + ·)) L =
        (List.zipWith (fun s x => s - x) S L).map (a + ·) := by
  intro L S h
  induction h with
  | nil => rfl
  | cons hxs _ ih =>
    simp only [List.map_cons, List.zipWith_cons_cons, ih]
    congr 1
    omega

lemma excl_cons (x : ℕ) (l : List ℕ) : excl (x :: l) = 0 :: (excl l).map (x + ·) := by
  unfold excl
  simp only [cumsum, List.zipWith_cons_cons, Nat.sub_self]
  rw [zipWith_sub_map_add x (cumsum_ge l)]

lemma lookup_zip_map (g : ℕ → ℕ) (c : ℕ) :
    ∀ (t offs : List ℕ),
      (t.zip (offs.map g)).lookup c = ((t.zip offs).lookup c).map g := by
  intro t
  induction t with
  | nil => intro offs; rfl
  | cons a t ih =>
    intro offs
    cases offs with
    | nil => rfl
    | cons o os =>
      rw [List.map_cons, List.zip_cons_cons, List.zip_cons_cons]
      by_cases hc : c = a
      · subst hc; simp [List.lookup]
      · have hb : (c == a) = false := beq_false_of_ne hc
        simp only [List.lookup, hb]
        exact ih os

lemma lookup_excl (f : ℕ → ℕ) :
    ∀ cs : List ℕ, cs.Pairwise (· < ·) → ∀ c ∈ cs,
      (cs.zip (excl (cs.map f))).lookup c =
        some (((cs.filter (fun x => x < c)).map f).sum) := by
  intro cs
  induction cs with
  | nil => intro _ c hc; cases hc
  | cons c0 t ih =>
    intro hp c hc
    have hhead : ∀ x ∈ t, c0 < x := fun x hx => List.rel_of_pairwise_cons hp hx
    have htail : t.Pairwise (· < ·) := hp.of_cons
    rw [List.map_cons, excl_cons, List.zip_cons_cons]
    rcases List.mem_cons.1 hc with rfl | hct
    · simp only [List.lookup, beq_self_eq_true]
      have hfil : t.filter (fun x => x < c) = [] := by
        rw [List.filter_eq_nil_iff]
        intro x hx
        simp only [decide_eq_true_eq]
        exact Nat.not_lt.mpr (Nat.le_of_lt (hhead x hx))
      simp [List.filter_cons, hfil]
    · have hne : c ≠ c0 := fun h => absurd (h ▸ hhead c hct) (lt_irrefl c)
      have hb : (c == c0) = false := beq_false_of_ne hne
      simp only [List.lookup, hb]
      rw [lookup_zip_map, ih htail c hct]
      have hc0 : c0 < c := hhead c hct
      simp [List.filter_cons, hc0]

lemma chroms_nodup (data : List GRec) : (chroms data).Nodup :=
  ((List.perm_insertionSort _ _).nodup_iff).2 (List.nodup_dedup _)

lemma chroms_pairwise_lt (data : List GRec) : (chroms data).Pairwise (· < ·) :=
  List.Sorted.lt_of_le (List.sorted_insertionSort _ _) (chroms_nodup data)

lemma mem_chroms {data : List GRec} {r : GRec} (h : r ∈ data) : r.chr ∈ chroms data := by
  unfold chroms
  rw [(List.perm_insertionSort _ _).mem_iff, List.mem_dedup]
  exact List.mem_map_of_mem _ h

lemma cumChr_eq (data : List GRec) :
    cumChr data = (chroms data).zip (excl ((chroms data).map (chrLength data))) := by
  unfold cumChr chrGrouped
  simp [List.map_map, Function.comp_def]

lemma codeOffset_eq_specOffset {data : List GRec} {c : ℕ} (h : c ∈ chroms data) :
    codeOffset data c = specOffset data c := by
  unfold codeOffset specOffset
  rw [cumChr_eq, lookup_excl (chrLength data) (chroms data) (chroms_pairwise_lt data) c h]
  rfl

lemma pos_le_chrLength {data : List GRec} {r : GRec} (h : r ∈ data) :
    r.pos ≤ chrLength data r.chr := by
  unfold chrLength
  have hmem : r.pos ∈ (data.filter (fun r' => r'.chr = r.chr)).map (fun r' => r'.pos) :=
    List.mem_map_of_mem _ (List.mem_filter.2 ⟨h, by simp⟩)
  revert hmem
  generalize (data.filter (fun r' => r'.chr = r.chr)).map (fun r' => r'.pos) = l
  intro hmem
  induction l with
  | nil => cases hmem
  | cons a l ih =>
    rcases List.mem_cons.1 hmem with rfl | hl
    · exact le_max_left _ _
    · exact le_trans (ih hl) (le_max_right _ _)

lemma specOffset_step {data : List GRec} {c1 c2 : ℕ}
    (h1 : c1 ∈ chroms data) (hlt : c1 < c2) :
    specOffset data c1 + chrLength data c1 ≤ specOffset data c2 := by
  classical
  unfold specOffset
  have hnd : (chroms data).Nodup := chroms_nodup data
  have hconv : ∀ c : ℕ, (((chroms data).filter (fun x => x < c)).map (chrLength data)).sum
      = ((chroms data).toFinset.filter (fun x => x < c)).sum (chrLength data) := by
    intro c
    rw [← List.sum_toFinset _ (hnd.filter _), List.toFinset_filter]
    simp
  rw [hconv c1, hconv c2]
  have hsub : insert c1 ((chroms data).toFinset.filter (fun x => x < c1)) ⊆
      (chroms data).toFinset.filter (fun x => x < c2) := by
    intro x hx
    rcases Finset.mem_insert.1 hx with rfl | hx
    · exact Finset.mem_filter.2 ⟨List.mem_toFinset.2 h1, hlt⟩
    · rcases Finset.mem_filter.1 hx with ⟨hm, hxlt⟩
      exact Finset.mem_filter.2 ⟨hm, lt_trans hxlt hlt⟩
  have hnotmem : c1 ∉ (chroms data).toFinset.filter (fun x => x < c1) := by
    intro hx
    exact absurd (Finset.mem_filter.1 hx).2 (lt_irrefl c1)
  calc ((chroms data).toFinset.filter (fun x => x < c1)).sum (chrLength data) + chrLength data c1
      = (insert c1 ((chroms data).toFinset.filter (fun x => x < c1))).sum (chrLength data) := by
        rw [Finset.sum_insert hnotmem]; exact Nat.add_comm _ _
    _ ≤ ((chroms data).toFinset.filter (fun x => x < c2)).sum (chrLength data) :=
        Finset.sum_le_sum_of_subset hsub

/-- C4: the merge/cumsum offset the code computes equals the spec formula:
the sum of the maximum observed positions of all strictly earlier
chromosomes. Every output record of compute_relative_pos carries
rel_pos = pos + that offset; the second conjunct is the spec's concrete
scenario CHR=[1,1,2,2], bp=[100,200,50,300], p=[1e-9,0.5,0.01,5e-8]. -/
theorem c4_relative_position :
    (∀ (neglog : ℚ → ℚ) (data : List GRec) (pr : GRec × ℕ × ℚ),
        pr ∈ compute_relative_pos neglog data →
          pr.2.1 = pr.1.pos + specOffset data pr.1.chr) ∧
    (∀ neglog : ℚ → ℚ,
        (compute_relative_pos neglog
          [⟨1, 100, 1/1000000000⟩, ⟨1, 200, 1/2⟩, ⟨2, 50, 1/100⟩, ⟨2, 300, 1/20000000⟩]).map
            (fun pr => pr.2.1) = [100, 200, 250, 500]) := by
  constructor
  · intro neglog data pr hpr
    rcases List.mem_map.1 hpr with ⟨r, hr, rfl⟩
    have hrdata : r ∈ data := (List.perm_insertionSort recOrd data).mem_iff.1 hr
    show relPos data r = r.pos + specOffset data r.chr
    unfold relPos
    rw [codeOffset_eq_specOffset (mem_chroms hrdata)]
  · intro neglog
    rfl

/-- Witness for C4 at the spec scenario: the record (CHR=2, bp=50) is in the
output with rel_pos = 50 + specOffset = 250. -/
theorem c4_relative_position_witness :
    (⟨⟨2, 50, 1/100⟩, 250, 0⟩ : GRec × ℕ × ℚ) ∈
        compute_relative_pos (fun _ => 0)
          [⟨1, 100, 1/1000000000⟩, ⟨1, 200, 1/2⟩, ⟨2, 50, 1/100⟩, ⟨2, 300, 1/20000000⟩] ∧
    (250 : ℕ) = 50 + specOffset
          [⟨1, 100, 1/1000000000⟩, ⟨1, 200, 1/2⟩, ⟨2, 50, 1/100⟩, ⟨2, 300, 1/20000000⟩] 2 := by
  have heq : compute_relative_pos (fun _ => (0 : ℚ))
      [⟨1, 100, 1/1000000000⟩, ⟨1, 200, 1/2⟩, ⟨2, 50, 1/100⟩, ⟨2, 300, 1/20000000⟩] =
      [(⟨1, 100, 1/1000000000⟩, 100, 0), (⟨1, 200, 1/2⟩, 200, 0),
       (⟨2, 50, 1/100⟩, 250, 0), (⟨2, 300, 1/20000000⟩, 500, 0)] := rfl
  have hmem : (⟨⟨2, 50, 1/100⟩, 250, 0⟩ : GRec × ℕ × ℚ) ∈
      compute_relative_pos (fun _ => (0 : ℚ))
        [⟨1, 100, 1/1000000000⟩, ⟨1, 200, 1/2⟩, ⟨2, 50, 1/100⟩, ⟨2, 300, 1/20000000⟩] := by
    rw [heq]
    exact List.mem_cons_of_mem _ (List.mem_cons_of_mem _ (List.mem_cons_self _ _))
  exact ⟨hmem, c4_relative_position.1 (fun _ => 0) _ _ hmem⟩

/-- C7 counterexample: the claim demands that every record of a strictly
later chromosome get a strictly greater rel_pos, but a record at base-pair
position 0 on chromosome 2 ties with the maximum-position record of
chromosome 1: for data CHR=[1,2], bp=[100,0] both records get rel_pos 100. -/
theorem c7_counterexample :
    ((⟨1, 100, 1/2⟩ : GRec) ∈ ([⟨1, 100, 1/2⟩, ⟨2, 0, 1/2⟩] : List GRec)) ∧
    ((⟨2, 0, 1/2⟩ : GRec) ∈ ([⟨1, 100, 1/2⟩, ⟨2, 0, 1/2⟩] : List GRec)) ∧
    (⟨1, 100, 1/2⟩ : GRec).chr < (⟨2, 0, 1/2⟩ : GRec).chr ∧
    ¬ (relPos [⟨1, 100, 1/2⟩, ⟨2, 0, 1/2⟩] ⟨1, 100, 1/2⟩ <
        relPos [⟨1, 100, 1/2⟩, ⟨2, 0, 1/2⟩] ⟨2, 0, 1/2⟩) := by
  refine ⟨List.mem_cons_self _ _, List.mem_cons_of_mem _ (List.mem_cons_self _ _),
    Nat.one_lt_two, ?_⟩
  have h1 : relPos [⟨1, 100, 1/2⟩, ⟨2, 0, 1/2⟩] ⟨1, 100, 1/2⟩ = 100 := rfl
  have h2 : relPos [⟨1, 100, 1/2⟩, ⟨2, 0, 1/2⟩] ⟨2, 0, 1/2⟩ = 100 := rfl
  rw [h1, h2]
  exact lt_irrefl 100

/-- C7 amended: every rel_pos is non-negative, and a record of a strictly
later chromosome has rel_pos at least as large as any record of an earlier
chromosome, strictly larger as soon as its base-pair position is positive
(the claim's unconditional strictness fails only for position-0 records). -/
theorem c7_amended_monotone :
    (∀ (data : List GRec) (r : GRec), 0 ≤ relPos data r) ∧
    ∀ (data : List GRec) (r1 r2 : GRec), r1 ∈ data → r2 ∈ data → r1.chr < r2.chr →
      relPos data r1 ≤ relPos data r2 ∧ (0 < r2.pos → relPos data r1 < relPos data r2) := by
  constructor
  · intro data r
    exact Nat.zero_le _
  · intro data r1 r2 h1 h2 hlt
    have e1 : relPos data r1 = r1.pos + specOffset data r1.chr := by
      unfold relPos
      rw [codeOffset_eq_specOffset (mem_chroms h1)]
    have e2 : relPos data r2 = r2.pos + specOffset data r2.chr := by
      unfold relPos
      rw [codeOffset_eq_specOffset (mem_chroms h2)]
    have hposle : r1.pos ≤ chrLength data r1.chr := pos_le_chrLength h1
    have hstep : specOffset data r1.chr + chrLength data r1.chr ≤ specOffset data r2.chr :=
      specOffset_step (mem_chroms h1) hlt
    omega

/-- Witness for C7 amended at CHR=[1,2], bp=[100,50]: rel_pos 100 ≤ 150 and
strictly since 0 < 50. -/
theorem c7_amended_monotone_witness :
    relPos [⟨1, 100, 1/2⟩, ⟨2, 50, 1/2⟩] ⟨1, 100, 1/2⟩ ≤
        relPos [⟨1, 100, 1/2⟩, ⟨2, 50, 1/2⟩] ⟨2, 50, 1/2⟩ ∧
    relPos [⟨1, 100, 1/2⟩, ⟨2, 50, 1/2⟩] ⟨1, 100, 1/2⟩ <
        relPos [⟨1, 100, 1/2⟩, ⟨2, 50, 1/2⟩] ⟨2, 50, 1/2⟩ := by
  have h := c7_amended_monotone.2 [⟨1, 100, 1/2⟩, ⟨2, 50, 1/2⟩] ⟨1, 100, 1/2⟩ ⟨2, 50, 1/2⟩
    (List.mem_cons_self _ _) (List.mem_cons_of_mem _ (List.mem_cons_self _ _)) Nat.one_lt_two
  exact ⟨h.1, h.2 (Nat.succ_pos 49)⟩

/-! ### Confidence band (plots.py, plot_confidence_interval lines 242-280)

The loop fills a 2k-row array: row i-1 gets (x_i, upper_i) and row 2k-i gets
(x_i, lower_i), so the result is the upper bounds for i=1..k followed by the
lower bounds for i=k..1. scipy's beta.ppf is abstracted as betaPpf; the code
passes it (1 - alpha/2, i, n - i) and (alpha/2, i, n - i). np.zeros with a
negative dimension (conf_points < 0, i.e. n = 0 after the min with n - 1)
raises ValueError. -/

/-- Rows 0..k-1 of the mpts array: (x_i, upper_i) for i = 1..k, where
x_i = -log10((i-0.5)/n) and upper_i = -log10(beta.ppf(1-alpha/2, i, n-i))
(lines 266-274; the loop index i corresponds to j+1 here). -/
def bandUppers (neglog : ℚ → ℚ) (betaPpf : ℚ → ℤ → ℤ → ℚ)
    (n : ℕ) (a : ℚ) (kn : ℕ) : List (ℚ × ℚ) :=
  (List.range kn).map (fun (j : ℕ) =>
    (neglog (((j : ℚ) + 1 - 1/2) / (n : ℚ)),
     neglog (betaPpf (1 - a / 2) ((j : ℤ) + 1) ((n : ℤ) - ((j : ℤ) + 1)))))

/-- Rows k..2k-1 of the mpts array: row 2k-i holds (x_i, lower_i) with
lower_i = -log10(beta.ppf(alpha/2, i, n-i)), so ranks descend k..1
(lines 266-276). -/
def bandLowers (neglog : ℚ → ℚ) (betaPpf : ℚ → ℤ → ℤ → ℚ)
    (n : ℕ) (a : ℚ) (kn : ℕ) : List (ℚ × ℚ) :=
  (List.range kn).reverse.map (fun (j : ℕ) =>
    (neglog (((j : ℚ) + 1 - 1/2) / (n : ℚ)),
     neglog (betaPpf (a / 2) ((j : ℤ) + 1) ((n : ℤ) - ((j : ℤ) + 1)))))

/-- Shallow embedding of the inner function plot_confidence_interval:
conf_points is clamped to min(conf_points, n-1); a negative value makes
np.zeros((conf_points*2, 2)) raise ValueError (n = 0). -/
def plot_confidence_interval (neglog : ℚ → ℚ) (betaPpf : ℚ → ℤ → ℤ → ℚ)
    (n : ℕ) (conf_points : ℤ) (conf_alpha : ℚ) : Except String (List (ℚ × ℚ)) :=
  if min conf_points ((n : ℤ) - 1) < 0 then
    Except.error "ValueError: negative dimensions are not allowed"
  else Except.ok
    (bandUppers neglog betaPpf n conf_alpha (min conf_points ((n : ℤ) - 1)).toNat ++
     bandLowers neglog betaPpf n conf_alpha (min conf_points ((n : ℤ) - 1)).toNat)

lemma bandUppers_length (neglog : ℚ → ℚ) (betaPpf : ℚ → ℤ → ℤ → ℚ)
    (n : ℕ) (a : ℚ) (kn : ℕ) : (bandUppers neglog betaPpf n a kn).length = kn := by
  simp [bandUppers]

lemma bandLowers_length (neglog : ℚ → ℚ) (betaPpf : ℚ → ℤ → ℤ → ℚ)
    (n : ℕ) (a : ℚ) (kn : ℕ) : (bandLowers neglog betaPpf n a kn).length = kn := by
  simp [bandLowers]

lemma bandUppers_getElem? (neglog : ℚ → ℚ) (betaPpf : ℚ → ℤ → ℤ → ℚ)
    (n : ℕ) (a : ℚ) {kn j : ℕ} (h : j < kn) :
    (bandUppers neglog betaPpf n a kn)[j]? =
      some (neglog (((j : ℚ) + 1 - 1/2) / (n : ℚ)),
        neglog (betaPpf (1 - a / 2) ((j : ℤ) + 1) ((n : ℤ) - ((j : ℤ) + 1)))) := by
  simp [bandUppers, List.getElem?_range h]

lemma bandLowers_getElem? (neglog : ℚ → ℚ) (betaPpf : ℚ → ℤ → ℤ → ℚ)
    (n : ℕ) (a : ℚ) {kn j : ℕ} (h : j < kn) :
    (bandLowers neglog betaPpf n a kn)[j]? =
      some (neglog ((((kn - 1 - j : ℕ) : ℚ) + 1 - 1/2) / (n : ℚ)),
        neglog (betaPpf (a / 2) (((kn - 1 - j : ℕ) : ℤ) + 1)
          ((n : ℤ) - (((kn - 1 - j : ℕ) : ℤ) + 1)))) := by
  unfold bandLowers
  rw [List.getElem?_map, List.getElem?_reverse (by simpa using h), List.length_range,
    List.getElem?_range (by omega)]
  rfl

/-- The upper bound as the spec's section 4.2 words it:
-log10(Beta_quantile(1-alpha/2, i, n-i+1)), with second shape n - i + 1. -/
def spec_upper_bound (neglog : ℚ → ℚ) (betaPpf : ℚ → ℤ → ℤ → ℚ)
    (n : ℕ) (a : ℚ) (i : ℤ) : ℚ :=
  neglog (betaPpf (1 - a / 2) i ((n : ℤ) - i + 1))

/-- C1 counterexample: the code passes n - i, not n - i + 1, as the Beta
second shape parameter. Instantiating betaPpf with a function that returns
its second shape parameter (so that the two calls are distinguishable) and
neglog with the identity: at n = 3, rank i = 1 the band's upper value is 2
(= n - i) while the spec formula gives 3 (= n - i + 1). -/
theorem c1_counterexample :
    plot_confidence_interval (fun x => x) (fun _ _ b => (b : ℚ)) 3 2 (1/20) =
      Except.ok [(1/6, 2), (1/2, 1), (1/2, 1), (1/6, 2)] ∧
    spec_upper_bound (fun x => x) (fun _ _ b => (b : ℚ)) 3 (1/20) 1 = 3 ∧
    (2 : ℚ) ≠ 3 := by
  refine ⟨?_, ?_, by norm_num⟩
  · unfold plot_confidence_interval bandUppers bandLowers
    norm_num [List.range_succ, show (2 : ℤ).toNat = 2 from rfl]
  · unfold spec_upper_bound
    norm_num

/-- C1 amended: for every n > 1, budget b > 0 and rank 1 ≤ i ≤ k =
min(b, n-1), the band succeeds, its (i-1)-th point is
(x_i, neglog(betaPpf(1-alpha/2, i, n-i))) and its (2k-i)-th point is
(x_i, neglog(betaPpf(alpha/2, i, n-i))): the Beta second shape parameter the
code uses is n - i. -/
theorem c1_amended_shape :
    ∀ (neglog : ℚ → ℚ) (betaPpf : ℚ → ℤ → ℤ → ℚ) (n : ℕ) (b : ℤ) (a : ℚ) (i : ℕ),
      1 < n → 0 < b → 1 ≤ i → (i : ℤ) ≤ min b ((n : ℤ) - 1) →
      ∃ pts, plot_confidence_interval neglog betaPpf n b a = Except.ok pts ∧
        pts[i - 1]? = some (neglog (((i : ℚ) - 1/2) / (n : ℚ)),
          neglog (betaPpf (1 - a / 2) (i : ℤ) ((n : ℤ) - (i : ℤ)))) ∧
        pts[2 * (min b ((n : ℤ) - 1)).toNat - i]? =
          some (neglog (((i : ℚ) - 1/2) / (n : ℚ)),
            neglog (betaPpf (a / 2) (i : ℤ) ((n : ℤ) - (i : ℤ)))) := by
  intro neglog betaPpf n b a i hn hb hi1 hik
  obtain ⟨i', rfl⟩ : ∃ i', i = i' + 1 := ⟨i - 1, by omega⟩
  have hknn : ¬ (min b ((n : ℤ) - 1) < 0) := by omega
  have hikn : i' + 1 ≤ (min b ((n : ℤ) - 1)).toNat := by omega
  set kn := (min b ((n : ℤ) - 1)).toNat with hkn
  have e1 : ((i' : ℚ) + 1 - 1/2) = (((i' + 1 : ℕ) : ℚ) - 1/2) := by push_cast; ring
  have e2 : ((i' : ℤ) + 1) = ((i' + 1 : ℕ) : ℤ) := by push_cast; ring
  refine ⟨_, by unfold plot_confidence_interval; rw [if_neg hknn], ?_, ?_⟩
  · have hlt : i' + 1 - 1 < (bandUppers neglog betaPpf n a kn).length := by
      rw [bandUppers_length]; omega
    rw [List.getElem?_append_left hlt, Nat.add_sub_cancel,
      bandUppers_getElem? neglog betaPpf n a (by omega), e1, e2]
  · have hge : (bandUppers neglog betaPpf n a kn).length ≤ 2 * kn - (i' + 1) := by
      rw [bandUppers_length]; omega
    rw [List.getElem?_append_right hge, bandUppers_length,
      bandLowers_getElem? neglog betaPpf n a (j := 2 * kn - (i' + 1) - kn) (by omega)]
    have hidx : kn - 1 - (2 * kn - (i' + 1) - kn) = i' := by omega
    rw [hidx, e1, e2]

/-- Witness for C1 amended at n = 3, b = 2, alpha = 1/20, rank i = 2. -/
theorem c1_amended_shape_witness :
    ∃ pts, plot_confidence_interval (fun x => x) (fun q _ _ => q) 3 2 (1/20) =
        Except.ok pts ∧
      pts[1]? = some (((2 : ℚ) - 1/2) / (3 : ℚ), 1 - (1/20) / 2) ∧
      pts[2 * 2 - 2]? = some (((2 : ℚ) - 1/2) / (3 : ℚ), (1/20) / 2) :=
  c1_amended_shape (fun x => x) (fun q _ _ => q) 3 2 (1/20) 2
    (by norm_num) (by norm_num) (by norm_num) (by decide)

/-- C6 counterexample: at alpha = 1 the band's bounds are
-log10(beta.ppf(1/2, i, n-i)); they coincide with each other but not with
x_i = -log10((i-0.5)/n). At n = 2, b = 1 the only rank is i = 1 and the
shape parameters are (1, 1): Beta(1,1) is the uniform distribution, so
beta.ppf(q, 1, 1) = q exactly and the instantiation betaPpf = (fun q a b => q)
agrees with scipy at every evaluated point. The band point is then
(x_1, upper_1) = (1/4, 1/2) (with neglog = id; -log10 is injective, so the
disagreement persists under the true -log10): upper_1 differs from x_1,
refuting upper_i == lower_i == x_i. -/
theorem c6_counterexample :
    plot_confidence_interval (fun x => x) (fun q _ _ => q) 2 1 1 =
      Except.ok [(1/4, 1/2), (1/4, 1/2)] ∧ ((1/2 : ℚ) ≠ 1/4) := by
  refine ⟨?_, by norm_num⟩
  unfold plot_confidence_interval bandUppers bandLowers
  norm_num [List.range_succ, show (1 : ℤ).toNat = 1 from rfl]

/-- C6 amended: for n > 1 and budget b > 0 the band has exactly
2 * min(b, n-1) points, and at alpha = 1 the upper and lower halves coincide
(the polygon is a doubled curve, upper_i = lower_i); the claim's further
equality with x_i does not hold. -/
theorem c6_amended_band :
    ∀ (neglog : ℚ → ℚ) (betaPpf : ℚ → ℤ → ℤ → ℚ) (n : ℕ) (b : ℤ) (a : ℚ),
      1 < n → 0 < b →
      ∃ pts, plot_confidence_interval neglog betaPpf n b a = Except.ok pts ∧
        pts.length = 2 * (min b ((n : ℤ) - 1)).toNat ∧
        (a = 1 → ∃ u, pts = u ++ u.reverse) := by
  intro neglog betaPpf n b a hn hb
  have hknn : ¬ (min b ((n : ℤ) - 1) < 0) := by omega
  refine ⟨_, by unfold plot_confidence_interval; rw [if_neg hknn], ?_, ?_⟩
  · rw [List.length_append, bandUppers_length, bandLowers_length]
    omega
  · intro ha
    subst ha
    refine ⟨bandUppers neglog betaPpf n 1 (min b ((n : ℤ) - 1)).toNat, ?_⟩
    congr 1
    unfold bandUppers bandLowers
    rw [← List.map_reverse]
    have h12 : (1 : ℚ) - 1 / 2 = 1 / 2 := by norm_num
    simp only [h12]

/-- Witness for C6 amended at n = 2, b = 1, alpha = 1. -/
theorem c6_amended_band_witness :
    ∃ pts, plot_confidence_interval (fun x => x) (fun q _ _ => q) 2 1 1 =
        Except.ok pts ∧
      pts.length = 2 * (min (1 : ℤ) ((2 : ℤ) - 1)).toNat ∧
      ((1 : ℚ) = 1 → ∃ u, pts = u ++ u.reverse) :=
  c6_amended_band (fun x => x) (fun q _ _ => q) 2 1 1 (by norm_num) (by norm_num)

/-! ### QQ plot (plots.py, qq_plot lines 190-306)

scipy.stats.rankdata(pvalues, method='ordinal'): rank of an element is one
plus the number of elements strictly smaller, or equal and earlier. The code
then thins the rounded pairs, computes the axis range with numpy min/max
reductions (which raise on an empty array), draws the confidence band, and
saves qq_plot.png returning True. -/

/-- scipy.stats.rankdata with method='ordinal'. -/
def ordinalRanks (ps : List ℚ) : List ℕ :=
  ps.enum.map (fun je =>
    1 + (ps.enum.filter (fun ke => ke.2 < je.2 ∨ (ke.2 = je.2 ∧ ke.1 < je.1))).length)

/-- Shallow embedding of qq_plot (grp = None path): returns the axis range,
the confidence band and the written file together with the True return
value, or the Python exception. -/
def qq_plot (neglog : ℚ → ℚ) (betaPpf : ℚ → ℤ → ℤ → ℚ) (df_p : List ℚ)
    (plots_dir : String) : Except String ((ℚ × ℚ) × List (ℚ × ℚ) × List String × Bool) :=
  let n := df_p.length
  let log_p := df_p.map neglog
  let exp_x := (ordinalRanks df_p).map (fun r => neglog (((r : ℚ) - 1/2) / (n : ℚ)))
  let thinned := thin (log_p.zip exp_x)
  match thinned with
  | [] => Except.error "ValueError: zero-size array to reduction operation minimum which has no identity"
  | t :: ts =>
      let lp := (t :: ts).map (fun q => q.1)
      let ex := (t :: ts).map (fun q => q.2)
      let lo := min (lp.foldr min t.1) (ex.foldr min t.2) - 1/2
      let hi := max (lp.foldr max t.1) (ex.foldr max t.2) + 1
      match plot_confidence_interval neglog betaPpf n 1500 (1/20) with
      | Except.error e => Except.error e
      | Except.ok band => Except.ok ((lo, hi), band, [plots_dir ++ "/qq_plot.png"], true)

/-- C8 counterexample: with zero p-values qq_plot raises (numpy min of an
empty array) and the confidence-band computation raises as well
(np.zeros((-2, 2)) after conf_points = min(1500, 0 - 1) = -1), contradicting
the claim that n = 0 is handled without raising. -/
theorem c8_counterexample :
    qq_plot (fun x => -x) (fun q _ _ => q) [] "plots" =
      Except.error "ValueError: zero-size array to reduction operation minimum which has no identity" ∧
    plot_confidence_interval (fun x => -x) (fun q _ _ => q) 0 1500 (1/20) =
      Except.error "ValueError: negative dimensions are not allowed" :=
  ⟨rfl, rfl⟩

/-- C8 amended: with exactly one p-value (n = 1) qq_plot completes without
raising and the confidence band degenerates to the empty band
(conf_points = min(1500, 0) = 0); with n = 0 both raise
(see the counterexample). -/
theorem c8_amended_degenerate :
    ∀ (neglog : ℚ → ℚ) (betaPpf : ℚ → ℤ → ℤ → ℚ) (p : ℚ) (d : String),
      (∃ out, qq_plot neglog betaPpf [p] d = Except.ok out) ∧
      plot_confidence_interval neglog betaPpf 1 1500 (1/20) = Except.ok [] := by
  intro neglog betaPpf p d
  exact ⟨⟨_, rfl⟩, rfl⟩

/-! ### Variant classifier (plots.py, classify_annotations lines 565-592)

An annotation-table row has columns SNP and GENE. The code inner-merges the
top table with the bottom table's SNP column (metadata from the top rows),
tags it on_both; the top rows whose SNP is absent from the bottom are tagged
top_in_bottom; the bottom rows whose SNP is absent from the top are tagged
bottom_in_top; the three frames are concatenated. -/

structure AnnRow where
  snp : String
  gene : String
deriving DecidableEq

/-- df_both = pd.merge(top, bottom.SNP, on='SNP', how='inner') with the
on_both tag (lines 582-583): one output row per matching (top, bottom) pair,
carrying the top row's data. -/
def ann_on_both (top bottom : List AnnRow) : List (AnnRow × String) :=
  top.flatMap (fun t => (bottom.filter (fun b => b.snp = t.snp)).map (fun _ => (t, "on_both")))

/-- df_top_in_bottom = top rows whose SNP is not in the bottom table
(lines 585-586). -/
def ann_top_only (top bottom : List AnnRow) : List (AnnRow × String) :=
  (top.filter (fun t => decide (t.snp ∉ bottom.map (fun b => b.snp)))).map
    (fun t => (t, "top_in_bottom"))

/-- df_bottom_in_top = bottom rows whose SNP is not in the top table
(lines 588-589). -/
def ann_bottom_only (top bottom : List AnnRow) : List (AnnRow × String) :=
  (bottom.filter (fun b => decide (b.snp ∉ top.map (fun t => t.snp)))).map
    (fun b => (b, "bottom_in_top"))

/-- classify_annotations: the concatenation of the three tagged frames
(line 592). -/
def classify_annotations (top bottom : List AnnRow) : List (AnnRow × String) :=
  ann_on_both top bottom ++ ann_top_only top bottom ++ ann_bottom_only top bottom

/-- The variant-id set of the rows carrying a given category tag. -/
def catIds (res : List (AnnRow × String)) (c : String) : Finset String :=
  ((res.filter (fun e => e.2 = c)).map (fun e => e.1.snp)).toFinset

lemma tag_on_both {top bottom : List AnnRow} {e : AnnRow × String}
    (h : e ∈ ann_on_both top bottom) : e.2 = "on_both" := by
  rcases List.mem_flatMap.1 h with ⟨t, -, hin⟩
  rcases List.mem_map.1 hin with ⟨b, -, rfl⟩
  rfl

lemma tag_top_only {top bottom : List AnnRow} {e : AnnRow × String}
    (h : e ∈ ann_top_only top bottom) : e.2 = "top_in_bottom" := by
  rcases List.mem_map.1 h with ⟨t, -, rfl⟩
  rfl

lemma tag_bottom_only {top bottom : List AnnRow} {e : AnnRow × String}
    (h : e ∈ ann_bottom_only top bottom) : e.2 = "bottom_in_top" := by
  rcases List.mem_map.1 h with ⟨b, -, rfl⟩
  rfl

lemma filter_classify_on_both (top bottom : List AnnRow) :
    (classify_annotations top bottom).filter (fun e => e.2 = "on_both") =
      ann_on_both top bottom := by
  unfold classify_annotations
  rw [List.filter_append, List.filter_append]
  rw [List.filter_eq_self.2 (fun e he => by simp [tag_on_both he]),
    List.filter_eq_nil_iff.2 (fun e he => by simp [tag_top_only he]),
    List.filter_eq_nil_iff.2 (fun e he => by simp [tag_bottom_only he])]
  simp

lemma filter_classify_top_only (top bottom : List AnnRow) :
    (classify_annotations top bottom).filter (fun e => e.2 = "top_in_bottom") =
      ann_top_only top bottom := by
  unfold classify_annotations
  rw [List.filter_append, List.filter_append]
  rw [List.filter_eq_nil_iff.2 (fun e he => by simp [tag_on_both he]),
    List.filter_eq_self.2 (fun e he => by simp [tag_top_only he]),
    List.filter_eq_nil_iff.2 (fun e he => by simp [tag_bottom_only he])]
  simp

lemma filter_classify_bottom_only (top bottom : List AnnRow) :
    (classify_annotations top bottom).filter (fun e => e.2 = "bottom_in_top") =
      ann_bottom_only top bottom := by
  unfold classify_annotations
  rw [List.filter_append, List.filter_append]
  rw [List.filter_eq_nil_iff.2 (fun e he => by simp [tag_on_both he]),
    List.filter_eq_nil_iff.2 (fun e he => by simp [tag_top_only he]),
    List.filter_eq_self.2 (fun e he => by simp [tag_bottom_only he])]
  simp

lemma mem_catIds_on_both {top bottom : List AnnRow} {x : String} :
    x ∈ catIds (classify_annotations top bottom) "on_both" ↔
      x ∈ top.map (fun t => t.snp) ∧ x ∈ bottom.map (fun b => b.snp) := by
  unfold catIds
  rw [filter_classify_on_both, List.mem_toFinset]
  constructor
  · intro hx
    rcases List.mem_map.1 hx with ⟨e, he, rfl⟩
    rcases List.mem_flatMap.1 he with ⟨t, ht, hin⟩
    rcases List.mem_map.1 hin with ⟨b, hb, rfl⟩
    have hbt : b.snp = t.snp := by
      have := List.mem_filter.1 hb
      simpa using this.2
    exact ⟨List.mem_map_of_mem _ ht, by
      rw [show t.snp = b.snp from hbt.symm]
      exact List.mem_map_of_mem _ ((List.mem_filter.1 hb).1)⟩
  · rintro ⟨hxt, hxb⟩
    rcases List.mem_map.1 hxt with ⟨t, ht, rfl⟩
    rcases List.mem_map.1 hxb with ⟨b, hb, hbe⟩
    refine List.mem_map.2 ⟨(t, "on_both"), ?_, rfl⟩
    refine List.mem_flatMap.2 ⟨t, ht, ?_⟩
    refine List.mem_map.2 ⟨b, List.mem_filter.2 ⟨hb, by simp [hbe]⟩, rfl⟩

lemma mem_catIds_top_only {top bottom : List AnnRow} {x : String} :
    x ∈ catIds (classify_annotations top bottom) "top_in_bottom" ↔
      x ∈ top.map (fun t => t.snp) ∧ x ∉ bottom.map (fun b => b.snp) := by
  unfold catIds
  rw [filter_classify_top_only, List.mem_toFinset]
  unfold ann_top_only
  rw [List.map_map]
  constructor
  · intro hx
    rcases List.mem_map.1 hx with ⟨t, ht, rfl⟩
    have hf := List.mem_filter.1 ht
    refine ⟨List.mem_map_of_mem _ hf.1, ?_⟩
    have := hf.2
    simpa using this
  · rintro ⟨hxt, hxb⟩
    rcases List.mem_map.1 hxt with ⟨t, ht, rfl⟩
    exact List.mem_map.2 ⟨t, List.mem_filter.2 ⟨ht, by simpa using hxb⟩, rfl⟩

lemma mem_catIds_bottom_only {top bottom : List AnnRow} {x : String} :
    x ∈ catIds (classify_annotations top bottom) "bottom_in_top" ↔
      x ∈ bottom.map (fun b => b.snp) ∧ x ∉ top.map (fun t => t.snp) := by
  unfold catIds
  rw [filter_classify_bottom_only, List.mem_toFinset]
  unfold ann_bottom_only
  rw [List.map_map]
  constructor
  · intro hx
    rcases List.mem_map.1 hx with ⟨b, hb, rfl⟩
    have hf := List.mem_filter.1 hb
    refine ⟨List.mem_map_of_mem _ hf.1, ?_⟩
    have := hf.2
    simpa using this
  · rintro ⟨hxb, hxt⟩
    rcases List.mem_map.1 hxb with ⟨b, hb, rfl⟩
    exact List.mem_map.2 ⟨b, List.mem_filter.2 ⟨hb, by simpa using hxt⟩, rfl⟩

lemma filter_length_of_nodup {bottom : List AnnRow} (s : String)
    (hB : (bottom.map (fun b => b.snp)).Nodup) :
    (bottom.filter (fun b => b.snp = s)).length =
      if s ∈ bottom.map (fun b => b.snp) then 1 else 0 := by
  induction bottom with
  | nil => simp
  | cons b bs ih =>
    rw [List.map_cons, List.nodup_cons] at hB
    by_cases hbs : b.snp = s
    · subst hbs
      rw [List.filter_cons_of_pos (by simp)]
      have hzero : (bs.filter (fun b' => b'.snp = b.snp)).length = 0 := by
        rw [List.length_eq_zero, List.filter_eq_nil_iff]
        intro b' hb'
        simp only [decide_eq_true_eq]
        intro heq
        exact hB.1 (heq ▸ List.mem_map_of_mem _ hb')
      simp [hzero]
    · rw [List.filter_cons_of_neg (by simp [hbs])]
      rw [ih hB.2]
      have : (s ∈ b.snp :: bs.map (fun b' => b'.snp)) ↔ (s ∈ bs.map (fun b' => b'.snp)) := by
        simp [List.mem_cons, fun h : b.snp = s => hbs h]
        intro h
        exact absurd h.symm hbs
      simp only [List.map_cons]
      rw [if_congr this rfl rfl]

lemma length_on_both {top bottom : List AnnRow}
    (hB : (bottom.map (fun b => b.snp)).Nodup) :
    (ann_on_both top bottom).length =
      top.countP (fun t => decide (t.snp ∈ bottom.map (fun b => b.snp))) := by
  induction top with
  | nil => rfl
  | cons t ts ih =>
    have hcons : ann_on_both (t :: ts) bottom =
        ((bottom.filter (fun b => b.snp = t.snp)).map (fun _ => (t, "on_both"))) ++
          ann_on_both ts bottom := rfl
    rw [hcons, List.length_append, List.length_map, ih, List.countP_cons,
      filter_length_of_nodup t.snp hB]
    by_cases hm : t.snp ∈ bottom.map (fun b => b.snp)
    · simp [hm, Nat.add_comm]
    · simp [hm]

lemma countP_not_split (p : AnnRow → Bool) (l : List AnnRow) :
    l.countP p + l.countP (fun a => !p a) = l.length := by
  induction l with
  | nil => rfl
  | cons a l ih =>
    rw [List.countP_cons, List.countP_cons, List.length_cons]
    cases h : p a <;> simp [h] <;> omega

lemma length_top_only (top bottom : List AnnRow) :
    (ann_top_only top bottom).length =
      top.countP (fun t => !decide (t.snp ∈ bottom.map (fun b => b.snp))) := by
  unfold ann_top_only
  rw [List.length_map, ← List.countP_eq_length_filter]
  congr 1
  funext t
  simp only [decide_not]

lemma length_bottom_only (top bottom : List AnnRow) :
    (ann_bottom_only top bottom).length =
      ((bottom.map (fun b => b.snp)).filter
        (fun s => decide (s ∉ top.map (fun t => t.snp)))).length := by
  unfold ann_bottom_only
  rw [List.length_map]
  induction bottom with
  | nil => rfl
  | cons b bs ih =>
    by_cases hm : b.snp ∈ top.map (fun t => t.snp)
    · rw [List.filter_cons_of_neg (by simp [hm]), List.map_cons,
        List.filter_cons_of_neg (by simp [hm]), ih]
    · rw [List.filter_cons_of_pos (by simp [hm]), List.map_cons,
        List.filter_cons_of_pos (by simp [hm]), List.length_cons, List.length_cons, ih]

/-- C3: the classifier's three groups have pairwise-disjoint variant-id sets
whose union is the union of the two input id sets; under the data-model
invariant that each annotation table lists each variant id once, the group
sizes add up to the cardinality of that union; an empty side passes the
other side through to its exclusive category (so empty inputs are handled). -/
theorem c3_classifier_partition :
    ∀ (top bottom : List AnnRow),
      (top.map (fun t => t.snp)).Nodup → (bottom.map (fun b => b.snp)).Nodup →
      (Disjoint (catIds (classify_annotations top bottom) "on_both")
          (catIds (classify_annotations top bottom) "top_in_bottom") ∧
       Disjoint (catIds (classify_annotations top bottom) "on_both")
          (catIds (classify_annotations top bottom) "bottom_in_top") ∧
       Disjoint (catIds (classify_annotations top bottom) "top_in_bottom")
          (catIds (classify_annotations top bottom) "bottom_in_top")) ∧
      (catIds (classify_annotations top bottom) "on_both" ∪
        catIds (classify_annotations top bottom) "top_in_bottom" ∪
        catIds (classify_annotations top bottom) "bottom_in_top" =
          (top.map (fun t => t.snp)).toFinset ∪ (bottom.map (fun b => b.snp)).toFinset) ∧
      (((classify_annotations top bottom).filter (fun e => e.2 = "on_both")).length +
        ((classify_annotations top bottom).filter (fun e => e.2 = "top_in_bottom")).length +
        ((classify_annotations top bottom).filter (fun e => e.2 = "bottom_in_top")).length =
          ((top.map (fun t => t.snp)).toFinset ∪
            (bottom.map (fun b => b.snp)).toFinset).card) ∧
      (bottom = [] →
        classify_annotations top bottom = top.map (fun t => (t, "top_in_bottom"))) ∧
      (top = [] →
        classify_annotations top bottom = bottom.map (fun b => (b, "bottom_in_top"))) := by
  intro top bottom hT hB
  refine ⟨⟨?_, ?_, ?_⟩, ?_, ?_, ?_, ?_⟩
  · rw [Finset.disjoint_left]
    intro x hx hy
    exact (mem_catIds_top_only.1 hy).2 (mem_catIds_on_both.1 hx).2
  · rw [Finset.disjoint_left]
    intro x hx hy
    exact (mem_catIds_bottom_only.1 hy).2 (mem_catIds_on_both.1 hx).1
  · rw [Finset.disjoint_left]
    intro x hx hy
    exact (mem_catIds_bottom_only.1 hy).2 (mem_catIds_top_only.1 hx).1
  · ext x
    simp only [Finset.mem_union, List.mem_toFinset, mem_catIds_on_both,
      mem_catIds_top_only, mem_catIds_bottom_only]
    by_cases hxt : x ∈ top.map (fun t => t.snp) <;>
      by_cases hxb : x ∈ bottom.map (fun b => b.snp) <;> simp [hxt, hxb]
  · rw [filter_classify_on_both, filter_classify_top_only, filter_classify_bottom_only,
      length_on_both hB, length_top_only, length_bottom_only]
    have hsplit : top.countP (fun t => decide (t.snp ∈ bottom.map (fun b => b.snp))) +
        top.countP (fun t => !decide (t.snp ∈ bottom.map (fun b => b.snp))) = top.length :=
      countP_not_split _ top
    have hunion : (top.map (fun t => t.snp)).toFinset ∪
        (bottom.map (fun b => b.snp)).toFinset =
        (top.map (fun t => t.snp)).toFinset ∪
          ((bottom.map (fun b => b.snp)).toFinset \ (top.map (fun t => t.snp)).toFinset) :=
      (Finset.union_sdiff_self_eq_union).symm
    rw [hunion, Finset.card_union_of_disjoint Finset.disjoint_sdiff]
    have hcardT : (top.map (fun t => t.snp)).toFinset.card = top.length := by
      rw [List.toFinset_card_of_nodup hT, List.length_map]
    have hsdiff : (bottom.map (fun b => b.snp)).toFinset \
        (top.map (fun t => t.snp)).toFinset =
        ((bottom.map (fun b => b.snp)).filter
          (fun s => decide (s ∉ top.map (fun t => t.snp)))).toFinset := by
      rw [List.toFinset_filter]
      rw [Finset.sdiff_eq_filter]
      apply Finset.filter_congr
      intro x hx
      simp
    have hcardB : ((bottom.map (fun b => b.snp)).filter
        (fun s => decide (s ∉ top.map (fun t => t.snp)))).toFinset.card =
        ((bottom.map (fun b => b.snp)).filter
          (fun s => decide (s ∉ top.map (fun t => t.snp)))).length :=
      List.toFinset_card_of_nodup (hB.filter _)
    rw [hsdiff, hcardB, hcardT]
    omega
  · intro hb
    subst hb
    have h1 : ann_on_both top [] = [] := by
      simp [ann_on_both]
    have h2 : ann_top_only top [] = top.map (fun t => (t, "top_in_bottom")) := by
      unfold ann_top_only
      rw [List.filter_eq_self.2 (fun t _ => by simp)]
    have h3 : ann_bottom_only top [] = [] := rfl
    rw [classify_annotations, h1, h2, h3, List.nil_append, List.append_nil]
  · intro ht
    subst ht
    have h1 : ann_on_both [] bottom = [] := rfl
    have h2 : ann_top_only [] bottom = [] := rfl
    have h3 : ann_bottom_only [] bottom = bottom.map (fun b => (b, "bottom_in_top")) := by
      unfold ann_bottom_only
      rw [List.filter_eq_self.2 (fun b _ => by simp)]
    rw [classify_annotations, h1, h2, h3, List.nil_append, List.nil_append]

/-- Witness for C3 at the spec scenario top = A,B,C and bottom = B,C,D:
the group sizes sum to the 4-element id union. -/
theorem c3_classifier_partition_witness :
    ((classify_annotations
        ([⟨"A", "g1"⟩, ⟨"B", "g2"⟩, ⟨"C", "g3"⟩] : List AnnRow)
        ([⟨"B", "h1"⟩, ⟨"C", "h2"⟩, ⟨"D", "h3"⟩] : List AnnRow)).filter
          (fun e => e.2 = "on_both")).length +
      ((classify_annotations
        ([⟨"A", "g1"⟩, ⟨"B", "g2"⟩, ⟨"C", "g3"⟩] : List AnnRow)
        ([⟨"B", "h1"⟩, ⟨"C", "h2"⟩, ⟨"D", "h3"⟩] : List AnnRow)).filter
          (fun e => e.2 = "top_in_bottom")).length +
      ((classify_annotations
        ([⟨"A", "g1"⟩, ⟨"B", "g2"⟩, ⟨"C", "g3"⟩] : List AnnRow)
        ([⟨"B", "h1"⟩, ⟨"C", "h2"⟩, ⟨"D", "h3"⟩] : List AnnRow)).filter
          (fun e => e.2 = "bottom_in_top")).length =
      ((([⟨"A", "g1"⟩, ⟨"B", "g2"⟩, ⟨"C", "g3"⟩] : List AnnRow).map (fun t => t.snp)).toFinset
        ∪ (([⟨"B", "h1"⟩, ⟨"C", "h2"⟩, ⟨"D", "h3"⟩] : List AnnRow).map
            (fun b => b.snp)).toFinset).card :=
  (c3_classifier_partition
    [⟨"A", "g1"⟩, ⟨"B", "g2"⟩, ⟨"C", "g3"⟩]
    [⟨"B", "h1"⟩, ⟨"C", "h2"⟩, ⟨"D", "h3"⟩]
    (by decide) (by decide)).2.2.1

/-! ### Caller-visible frame mutation (plots.py, prepare_data lines 428-449
and miami_plot lines 397-416)

The mutations at issue add columns to the caller's dataframes in place; no
code path modifies existing values, so a frame is modelled by its list of
column names. -/

/-- A dataframe viewed as its list of column names. -/
abbrev Frame := List String

/-- Pandas column assignment df[col] = value: appends the column if absent. -/
def setCol (f : Frame) (c : String) : Frame := if c ∈ f then f else f ++ [c]

/-- prepare_data: data_top['split_by'] = 'top' and
data_bottom['split_by'] = 'bottom' write IN PLACE into the argument frames
(lines 444-445) before pd.concat (line 447). Result components: the caller's
top frame after the call, the caller's bottom frame after the call, and the
concatenated frame (whose column set is the union). -/
def prepare_data (data_top data_bottom : Frame) : Frame × Frame × Frame :=
  let top' := setCol data_top "split_by"
  let bottom' := setCol data_bottom "split_by"
  (top', bottom', top' ++ bottom'.filter (fun c => decide (c ∉ top')))

/-- miami_plot's effect on its caller's four frames: process_miami_data calls
prepare_data, mutating both association frames (line 548 via 444-445); a
highlight frame supplied alone receives a type column in place
(top_higlights['type'] = ..., lines 399 and 406); when both highlight frames
are supplied, classify_annotations builds new frames from merges/filters and
leaves its inputs unchanged (lines 411-416, 582-592). -/
def miami_caller_frames (df_top df_bottom : Frame)
    (top_higlights bottom_higlights : Option Frame) :
    Frame × Frame × Option Frame × Option Frame :=
  let p := prepare_data df_top df_bottom
  let tophl := match top_higlights, bottom_higlights with
    | some h, none => some (setCol h "type")
    | some h, some _ => some h
    | none, _ => none
  let bothl := match top_higlights, bottom_higlights with
    | none, some h => some (setCol h "type")
    | some _, some h => some h
    | _, none => none
  (p.1, p.2.1, tophl, bothl)

/-- manhattan_plot copies its input before modifying it (df = df_gwas.copy(),
line 52; all later writes target df) and only reads df_annot (lines 64-65):
the caller's frames after the call are the frames passed in. -/
def manhattan_caller_frames (df_gwas : Frame) (df_annot : Option Frame) :
    Frame × Option Frame := (df_gwas, df_annot)

/-- qq_plot only reads df_gwas['p'].values (line 207). -/
def qq_caller_frames (df_gwas : Frame) : Frame := df_gwas

/-- C9 counterexample: calling miami_plot on association frames with columns
CHR, POS, p, SNP and a top highlight table (no bottom highlights) leaves the
caller's top association frame with an extra split_by column and the
highlight frame with an extra type column — the inputs are mutated. -/
theorem c9_counterexample :
    (miami_caller_frames ["CHR", "POS", "p", "SNP"] ["CHR", "POS", "p", "SNP"]
        (some ["SNP", "GENE"]) none).1 ≠ ["CHR", "POS", "p", "SNP"] ∧
    (miami_caller_frames ["CHR", "POS", "p", "SNP"] ["CHR", "POS", "p", "SNP"]
        (some ["SNP", "GENE"]) none).1 = ["CHR", "POS", "p", "SNP", "split_by"] ∧
    (miami_caller_frames ["CHR", "POS", "p", "SNP"] ["CHR", "POS", "p", "SNP"]
        (some ["SNP", "GENE"]) none).2.2.1 = some ["SNP", "GENE", "type"] := by
  refine ⟨?_, by decide, by decide⟩
  decide

/-- C9 amended: manhattan_plot and qq_plot do not mutate their callers'
frames, but miami_plot does: prepare_data appends a split_by column in place
to both association frames (changing any frame that lacked it), and a
highlight frame supplied alone gains a type column in place. -/
theorem c9_amended_mutation :
    (∀ (top bottom : Frame) (tophl bothl : Option Frame), "split_by" ∉ top →
       (miami_caller_frames top bottom tophl bothl).1 = top ++ ["split_by"] ∧
       (miami_caller_frames top bottom tophl bothl).1 ≠ top) ∧
    (∀ (top bottom hl : Frame), "type" ∉ hl →
       (miami_caller_frames top bottom (some hl) none).2.2.1 = some (hl ++ ["type"])) ∧
    (∀ (g : Frame) (a : Option Frame), manhattan_caller_frames g a = (g, a)) ∧
    (∀ g : Frame, qq_caller_frames g = g) := by
  refine ⟨?_, ?_, fun g a => rfl, fun g => rfl⟩
  · intro top bottom tophl bothl hnot
    have h1 : (miami_caller_frames top bottom tophl bothl).1 = top ++ ["split_by"] := by
      show (prepare_data top bottom).1 = top ++ ["split_by"]
      show setCol top "split_by" = top ++ ["split_by"]
      unfold setCol
      rw [if_neg hnot]
    refine ⟨h1, ?_⟩
    rw [h1]
    intro heq
    have := congrArg List.length heq
    simp at this
  · intro top bottom hl hnot
    show some (setCol hl "type") = some (hl ++ ["type"])
    unfold setCol
    rw [if_neg hnot]

/-- Witness for C9 amended at concrete frames lacking the added columns. -/
theorem c9_amended_mutation_witness :
    (miami_caller_frames ["CHR", "POS", "p"] ["CHR", "POS", "p"] none none).1 =
        ["CHR", "POS", "p"] ++ ["split_by"] ∧
    (miami_caller_frames ["CHR", "POS", "p"] ["CHR", "POS", "p"] none none).1 ≠
        ["CHR", "POS", "p"] :=
  c9_amended_mutation.1 ["CHR", "POS", "p"] ["CHR", "POS", "p"] none none (by decide)

/-! ### manhattan_plot control flow (plots.py lines 30-103)

annotate_plot (line 157) requires four positional arguments
(ax, highlighted_snps, snps, genes), but the call at line 79 passes only
three (ax, highlighted_snps, genes), so with annotate=True Python raises
TypeError at the call site before anything is drawn; with annotate=True and
no annotation table the name highlighted_snps (only assigned under the
df_annot check of line 63) is unbound, a NameError. With annotate=False the
function reaches line 83, where max() over the log10P column of an empty
frame raises ValueError; otherwise it returns the Axes object when plots_dir
is None (lines 96-97) and saves manhattan_plot.png returning True otherwise
(lines 99-103). The numeric columns (log10P, ind) do not influence which of
these outcomes occurs, so the embedding records the written files and the
return value. -/

structure MRow where
  chr : ℕ
  bp : ℕ
  snp : String
  p : ℚ
deriving DecidableEq

/-- manhattan_plot's return value: the Axes object (plots_dir None) or the
boolean success indicator. -/
inductive MRet where
  | axesObj : MRet
  | boolVal : Bool → MRet
deriving DecidableEq

/-- Shallow embedding of manhattan_plot: Python-exception outcomes via
Except, successful outcomes as (files written, returned value). -/
def manhattan_plot (neglog : ℚ → ℚ) (df_gwas : List MRow) (plots_dir : Option String)
    (df_annot : Option (List AnnRow)) (annotate : Bool) :
    Except String (List String × MRet) :=
  if annotate then
    match df_annot with
    | none => Except.error "NameError: name highlighted_snps is not defined"
    | some _ =>
        Except.error "TypeError: annotate_plot() missing 1 required positional argument: genes"
  else if df_gwas.isEmpty then
    Except.error "ValueError: max() arg is an empty sequence"
  else
    match plots_dir with
    | none => Except.ok ([], MRet.axesObj)
    | some d => Except.ok ([d ++ "/manhattan_plot.png"], MRet.boolVal true)

/-- C2: the claim requires manhattan_plot with annotate=True and a
well-formed annotation table to complete without raising, but the call at
plots.py line 79 passes annotate_plot three of its four required positional
arguments (line 157), so Python raises TypeError for every such input —
here evaluated at a one-row association table annotated with its own SNP. -/
theorem c2_annotate_type_error :
    manhattan_plot (fun x => -x) [⟨1, 100, "rs1", 1/100⟩] (some "plots")
        (some [⟨"rs1", "GENE1"⟩]) true =
      Except.error
        "TypeError: annotate_plot() missing 1 required positional argument: genes" := rfl

/-- C10: with a non-empty table and annotate=False, manhattan_plot returns
the Axes object and writes nothing when plots_dir is None, and writes
manhattan_plot.png into the given directory returning True when plots_dir is
supplied. -/
theorem c10_plots_dir_dispatch :
    ∀ (neglog : ℚ → ℚ) (df_gwas : List MRow) (df_annot : Option (List AnnRow)),
      df_gwas ≠ [] →
      manhattan_plot neglog df_gwas none df_annot false = Except.ok ([], MRet.axesObj) ∧
      ∀ d : String, manhattan_plot neglog df_gwas (some d) df_annot false =
        Except.ok ([d ++ "/manhattan_plot.png"], MRet.boolVal true) := by
  intro neglog df ann h
  have hne : df.isEmpty = false := by
    cases df with
    | nil => exact absurd rfl h
    | cons a l => rfl
  constructor
  · simp [manhattan_plot, hne]
  · intro d
    simp [manhattan_plot, hne]

/-- Witness for C10 at a one-row table, with and without a target directory. -/
theorem c10_plots_dir_dispatch_witness :
    manhattan_plot (fun x => -x) [⟨1, 100, "rs1", 1/100⟩] none none false =
        Except.ok ([], MRet.axesObj) ∧
    manhattan_plot (fun x => -x) [⟨1, 100, "rs1", 1/100⟩] (some "plots") none false =
        Except.ok (["plots" ++ "/manhattan_plot.png"], MRet.boolVal true) := by
  have h := c10_plots_dir_dispatch (fun x => -x) [⟨1, 100, "rs1", 1/100⟩] none
    (List.cons_ne_nil _ _)
  exact ⟨h.1, h.2 "plots"⟩

end GwasPlots
